import Mathlib

/-!
# Verification of the gowebmail message-capture core

A shallow embedding, in Lean, of the parts of the gowebmail repository that
its specification talks about: the SQLite-backed storage engine
(`internal/storage/sqlite.go`), the MIME parser (`internal/email/parser.go`),
the SMTP session glue (`internal/smtp/server.go`), the HTTP handlers
(`internal/api/handlers.go`) and the WebSocket hub
(`internal/api/websocket.go`).  Each Lean definition mirrors one Go function;
machine integers (`int64`) are modelled as `Int`, byte strings as `String`,
`time.Time` as an integer timestamp, and SQL tables as lists of row records
kept in rowid (insertion) order.

SQLite-specific behaviour is modelled explicitly where it matters:

* `ORDER BY received_at DESC` carries no tiebreak in the source.  SQLite
  serves this query from the index `idx_emails_received (received_at DESC)`,
  whose entries with equal keys are ordered by rowid ascending, so rows with
  equal `received_at` come back in id-ascending order.  The model sorts with
  exactly that tiebreak (`rowLe`).
* The schema declares `FOREIGN KEY (email_id) REFERENCES emails(id) ON DELETE
  CASCADE`, but the DSN built in `NewSQLiteStorage`
  (`dbPath+"?_journal_mode=WAL&_busy_timeout=5000"`) never switches on
  `_foreign_keys`, and SQLite leaves foreign-key enforcement OFF by default.
  The model records the DSN options and derives `foreignKeysEnabled` from
  them; deletions cascade only when that flag is true.
* `LIKE '%'||q||'%'` is modelled as case-insensitive (ASCII) substring
  containment, faithful for queries free of the LIKE metacharacters `%`/`_`.
* An FTS5 `MATCH` with a plain single-token query matches a row iff the token
  occurs among the unicode61 tokens (maximal alphanumeric runs, case-folded)
  of one of the indexed columns; the triggers `emails_ai`/`emails_ad` keep
  `emails_fts` synchronized with `emails` inside the writing transaction, so
  the match set is computed from the `emails` table itself.
-/

namespace GoWebMail

/-! ## Data model — `internal/storage/models.go` -/

/-- `storage.AttachmentMeta`. -/
structure AttachmentMeta where
  id : Int
  filename : String
  contentType : String
  size : Int
deriving Repr, DecidableEq

/-- `storage.Attachment`: metadata plus payload bytes (bytes as `String`). -/
structure Attachment where
  meta : AttachmentMeta
  data : String
deriving Repr, DecidableEq

/-- `storage.Email` (the decoded message handed to `SaveEmail`). -/
structure Email where
  id : Int
  messageID : String
  fromAddr : String
  toAddrs : List String
  cc : List String
  bcc : List String
  subject : String
  bodyPlain : String
  bodyHTML : String
  headers : List (String × List String)
  attachments : List AttachmentMeta
  size : Int
  receivedAt : Int
  read : Bool
deriving Repr, DecidableEq

/-- `storage.EmailFilter`. -/
structure EmailFilter where
  fromF : String
  toF : String
  subjectF : String
  since : Option Int
  untilF : Option Int
deriving Repr, DecidableEq

/-! ## SQLite state — schema of `internal/storage/schema.go`

A row of the `emails` table.  `to_addresses`, `cc_addresses`,
`bcc_addresses` and `headers` are stored as the JSON text produced by
`json.Marshal` in `SaveEmail`. -/

/-- One row of the `emails` table. -/
structure EmailRow where
  id : Int
  messageID : String
  fromAddress : String
  toAddresses : String
  ccAddresses : String
  bccAddresses : String
  subject : String
  bodyPlain : String
  bodyHTML : String
  headers : String
  size : Int
  receivedAt : Int
  read : Bool
deriving Repr, DecidableEq

/-- One row of the `attachments` table. -/
structure AttachmentRow where
  id : Int
  emailId : Int
  filename : String
  contentType : String
  size : Int
  data : String
deriving Repr, DecidableEq

/-- Database state: the two tables in rowid order plus the AUTOINCREMENT
counters and the FTS5 capability flag probed once in `initSchema`. -/
structure DB where
  emails : List EmailRow
  attachments : List AttachmentRow
  nextEmailId : Int
  nextAttachmentId : Int
  hasFTS5 : Bool
deriving Repr, DecidableEq

/-- A fresh database, as `NewSQLiteStorage` + `initSchema` create it
(AUTOINCREMENT ids start at 1). -/
def emptyDB (hasFTS5 : Bool) : DB :=
  { emails := [], attachments := [], nextEmailId := 1, nextAttachmentId := 1,
    hasFTS5 := hasFTS5 }

/-- The DSN options `NewSQLiteStorage` appends to the database path:
`dbPath + "?_journal_mode=WAL&_busy_timeout=5000"`. -/
def dsnOptions : List String := ["_journal_mode=WAL", "_busy_timeout=5000"]

/-- SQLite enforces the schema's `ON DELETE CASCADE` only when foreign-key
enforcement is switched on for the connection; with the go-sqlite3 driver
that requires a `_foreign_keys` (or `_fk`) DSN option, which `dsnOptions`
does not contain.  SQLite's own default is OFF. -/
def foreignKeysEnabled : Bool :=
  dsnOptions.any fun o =>
    o == "_foreign_keys=1" || o == "_foreign_keys=true" || o == "_foreign_keys=on" ||
    o == "_fk=1" || o == "_fk=true" || o == "_fk=on"

/-! ## JSON encoding used by `SaveEmail` (`encoding/json`) -/

/-- `encoding/json` string escaping (quote, backslash, and the HTML-unsafe
characters it escapes by default; control characters do not occur in the
claims' inputs). -/
def jsonEscapeChar (c : Char) : String :=
  if c = '"' then "\\\""
  else if c = '\\' then "\\\\"
  else if c = '<' then "\\u003c"
  else if c = '>' then "\\u003e"
  else if c = '&' then "\\u0026"
  else String.mk [c]

/-- JSON string literal. -/
def jsonString (s : String) : String :=
  "\"" ++ String.join (s.toList.map jsonEscapeChar) ++ "\""

/-- `json.Marshal` of a `[]string` (a nil Go slice marshals to `null`; the
model does not distinguish nil from empty and uses `[]`, which no claim
depends on). -/
def jsonStringList (xs : List String) : String :=
  "[" ++ String.intercalate "," (xs.map jsonString) ++ "]"

/-- `json.Marshal` of the header map (order as given; Go sorts map keys,
which no claim depends on). -/
def jsonHeaders (hs : List (String × List String)) : String :=
  "\x7b" ++ String.intercalate ","
    (hs.map fun kv => jsonString kv.1 ++ ":" ++ jsonStringList kv.2) ++ "\x7d"

/-! ## `SQLiteStorage.SaveEmail` -/

/-- Models the type assertion `interface{}(&att).(*Attachment)` inside
`SaveEmail`'s attachment loop.  The loop variable `att` has type
`AttachmentMeta` (the element type of `Email.Attachments`), so the boxed
value's dynamic type is `*AttachmentMeta`, never `*Attachment`: the
assertion fails on every iteration and the guarded INSERT never runs. -/
def asFullAttachment (_ : AttachmentMeta) : Option Attachment := none

/-- The `INSERT INTO emails ...` row built by `SaveEmail`. -/
def emailToRow (rowId : Int) (e : Email) : EmailRow :=
  { id := rowId
    messageID := e.messageID
    fromAddress := e.fromAddr
    toAddresses := jsonStringList e.toAddrs
    ccAddresses := jsonStringList e.cc
    bccAddresses := jsonStringList e.bcc
    subject := e.subject
    bodyPlain := e.bodyPlain
    bodyHTML := e.bodyHTML
    headers := jsonHeaders e.headers
    size := e.size
    receivedAt := e.receivedAt
    read := e.read }

/-- `SaveEmail`: one transaction inserting the email row and then looping
over `email.Attachments`; each iteration inserts an attachment row only when
the type assertion modelled by `asFullAttachment` succeeds.  The pure model
always commits (I/O faults are environmental); it returns the new state and
`LastInsertId`. -/
def saveEmail (db : DB) (e : Email) : DB × Int :=
  let row := emailToRow db.nextEmailId e
  let step : List AttachmentRow × Int → AttachmentMeta → List AttachmentRow × Int :=
    fun acc att =>
      match asFullAttachment att with
      | some a =>
          (acc.1 ++ [{ id := acc.2, emailId := row.id, filename := att.filename,
                       contentType := att.contentType, size := att.size,
                       data := a.data }], acc.2 + 1)
      | none => acc
  let inserted := e.attachments.foldl step ([], db.nextAttachmentId)
  ({ db with
      emails := db.emails ++ [row]
      attachments := db.attachments ++ inserted.1
      nextEmailId := db.nextEmailId + 1
      nextAttachmentId := inserted.2 },
   row.id)

/-! ## Reads -/

/-- `SQLiteStorage.GetEmail`: `SELECT ... FROM emails WHERE id = ?`, then the
attachment-metadata rows `WHERE email_id = ?` (payloads never selected).
`sql.ErrNoRows` (→ `ErrNotFound`) is modelled as `none`.  The model returns
the row together with the metadata list; reassembling `storage.Email`
(JSON unmarshalling) is a repackaging no claim depends on. -/
def getEmail (db : DB) (id : Int) : Option (EmailRow × List AttachmentMeta) :=
  match db.emails.find? (fun r => r.id == id) with
  | none => none
  | some r =>
      some (r, (db.attachments.filter (fun a => a.emailId == id)).map
        (fun a => { id := a.id, filename := a.filename,
                    contentType := a.contentType, size := a.size }))

/-- `SQLiteStorage.GetAttachment`: `SELECT ... FROM attachments WHERE id = ?`
including the payload; `ErrNotFound` as `none`. -/
def getAttachment (db : DB) (id : Int) : Option AttachmentRow :=
  db.attachments.find? (fun a => a.id == id)

/-! ## Deletion -/

/-- `SQLiteStorage.DeleteEmail`: `DELETE FROM emails WHERE id = ?`;
`RowsAffected == 0` yields `ErrNotFound` (`none`).  Attachment rows of the
deleted email are removed only when foreign-key enforcement is on (see
`foreignKeysEnabled`). -/
def deleteEmail (db : DB) (id : Int) : Option DB :=
  let remaining := db.emails.filter (fun r => !(r.id == id))
  if remaining.length == db.emails.length then none
  else
    some { db with
            emails := remaining
            attachments :=
              if foreignKeysEnabled then
                db.attachments.filter (fun a => !(a.emailId == id))
              else db.attachments }

/-! ## `ORDER BY received_at DESC`

The queries in `ListEmails`, `SearchEmails` and `DeleteExcessEmails` order by
`received_at DESC` with no further sort key.  SQLite satisfies them from
`idx_emails_received (received_at DESC)`, whose entries with equal keys are
stored in rowid-ascending order, so ties come back with ids ascending.  The
model sorts by that total key: `received_at` descending, then id
ascending. -/

/-- Row order produced by `ORDER BY received_at DESC` (ties id-ascending,
see above). -/
def rowLe (a b : EmailRow) : Bool :=
  decide (b.receivedAt < a.receivedAt) ||
    (decide (a.receivedAt = b.receivedAt) && decide (a.id ≤ b.id))

/-- Ordered insertion (for a total `le` this sorts deterministically). -/
def insertRowBy (le : EmailRow → EmailRow → Bool) (r : EmailRow) :
    List EmailRow → List EmailRow
  | [] => [r]
  | x :: xs => if le r x then r :: x :: xs else x :: insertRowBy le r xs

/-- Insertion sort of rows by `le`. -/
def sortRowsBy (le : EmailRow → EmailRow → Bool) :
    List EmailRow → List EmailRow
  | [] => []
  | x :: xs => insertRowBy le x (sortRowsBy le xs)

/-- Sort rows the way the query's `ORDER BY received_at DESC` returns them. -/
def orderByReceivedAtDesc : List EmailRow → List EmailRow :=
  sortRowsBy rowLe

/-! ## Filters and `LIKE` matching -/

/-- ASCII lower-casing, as SQLite's `LIKE` and FTS5's unicode61 tokenizer
case-fold ASCII. -/
def lowerChar (c : Char) : Char :=
  if 'A' ≤ c ∧ c ≤ 'Z' then Char.ofNat (c.toNat + 32) else c

/-- A string as a case-folded character list. -/
def lowerStr (s : String) : List Char := s.toList.map lowerChar

/-- `column LIKE '%' || q || '%'`: case-insensitive substring containment
(faithful for `q` free of the LIKE metacharacters `%` and `_`). -/
def likeContains (q s : String) : Bool := decide (lowerStr q <:+: lowerStr s)

/-- The WHERE clause `ListEmails` builds: absent (`""`/`nil`) predicates are
not added; present ones are ANDed (`LIKE` for the three substring filters,
`received_at >= ?` / `received_at <= ?` for the date bounds). -/
def rowMatchesFilter (filter : Option EmailFilter) (r : EmailRow) : Bool :=
  match filter with
  | none => true
  | some f =>
      (f.fromF == "" || likeContains f.fromF r.fromAddress) &&
      (f.toF == "" || likeContains f.toF r.toAddresses) &&
      (f.subjectF == "" || likeContains f.subjectF r.subject) &&
      (match f.since with | none => true | some t => decide (t ≤ r.receivedAt)) &&
      (match f.untilF with | none => true | some t => decide (r.receivedAt ≤ t))

/-- `storage.EmailListResult` (`Total` is the unpaginated match count). -/
structure EmailListResult where
  emails : List EmailRow
  total : Int
deriving Repr, DecidableEq

/-- `SQLiteStorage.ListEmails`: count the matching rows, then return the page
`ORDER BY received_at DESC LIMIT ? OFFSET ?`.  The HTTP layer clamps `limit`
to `[1,100]` and `offset` to `≥ 0`, so both are `Nat` here. -/
def listEmails (db : DB) (filter : Option EmailFilter) (limit offset : Nat) :
    EmailListResult :=
  let matching := db.emails.filter (rowMatchesFilter filter)
  { emails := ((orderByReceivedAtDesc matching).drop offset).take limit
    total := matching.length }

/-! ## `SQLiteStorage.SearchEmails` — the two search modes -/

/-- ASCII alphanumeric: the token characters of FTS5's unicode61 tokenizer
(for the ASCII inputs the claims range over). -/
def isAlnum (c : Char) : Bool :=
  (decide ('0' ≤ c) && decide (c ≤ '9')) ||
    (decide ('a' ≤ c) && decide (c ≤ 'z')) ||
    (decide ('A' ≤ c) && decide (c ≤ 'Z'))

/-- Split a character list into its maximal alphanumeric runs (`acc` holds
the current run, reversed). -/
def tokenizeAux (acc : List Char) : List Char → List (List Char)
  | [] => if acc.isEmpty then [] else [acc.reverse]
  | c :: rest =>
      if isAlnum c then tokenizeAux (c :: acc) rest
      else if acc.isEmpty then tokenizeAux [] rest
      else acc.reverse :: tokenizeAux [] rest

/-- The unicode61 tokens of a column value: maximal alphanumeric runs of the
case-folded text. -/
def tokensOf (s : String) : List (List Char) := tokenizeAux [] (lowerStr s)

/-- The columns of the `emails_fts` virtual table (and, identically, the
columns the fallback query's `LIKE`s touch): subject, from_address,
to_addresses, body_plain. -/
def searchColumns (r : EmailRow) : List String :=
  [r.subject, r.fromAddress, r.toAddresses, r.bodyPlain]

/-- `emails_fts MATCH q` for a plain single-token query: the token occurs in
some indexed column.  The `emails_ai` / `emails_ad` / `emails_au` triggers
keep `emails_fts` synchronized with `emails` inside the writing transaction,
so the match is computed from the `emails` table. -/
def ftsRowMatch (q : String) (r : EmailRow) : Bool :=
  (searchColumns r).any fun f => (tokensOf f).contains (lowerStr q)

/-- The fallback WHERE clause:
`subject LIKE ? OR from_address LIKE ? OR to_addresses LIKE ? OR body_plain
LIKE ?`, every `?` bound to `'%' + query + '%'`. -/
def fallbackRowMatch (q : String) (r : EmailRow) : Bool :=
  likeContains q r.subject || likeContains q r.fromAddress ||
    likeContains q r.toAddresses || likeContains q r.bodyPlain

/-- The FTS5 branch of `SearchEmails` (`s.hasFTS5` true): join the MATCH
result back to `emails`, order by `received_at DESC`, paginate; `Total` from
the separate `COUNT(*) ... MATCH` query. -/
def searchEmailsFTS (db : DB) (q : String) (limit offset : Nat) :
    EmailListResult :=
  let matching := db.emails.filter (ftsRowMatch q)
  { emails := ((orderByReceivedAtDesc matching).drop offset).take limit
    total := matching.length }

/-- The LIKE fallback branch of `SearchEmails` (`s.hasFTS5` false). -/
def searchEmailsLike (db : DB) (q : String) (limit offset : Nat) :
    EmailListResult :=
  let matching := db.emails.filter (fallbackRowMatch q)
  { emails := ((orderByReceivedAtDesc matching).drop offset).take limit
    total := matching.length }

/-- `SQLiteStorage.SearchEmails`: mode chosen by the FTS5 capability flag
probed once at startup. -/
def searchEmails (db : DB) (q : String) (limit offset : Nat) :
    EmailListResult :=
  if db.hasFTS5 then searchEmailsFTS db q limit offset
  else searchEmailsLike db q limit offset

/-! ## Retention: `SQLiteStorage.DeleteExcessEmails` -/

/-- `DELETE FROM emails WHERE id IN (SELECT id FROM emails ORDER BY
received_at DESC LIMIT -1 OFFSET ?)`: every row past the first `maxCount` in
the query order is deleted; returns `RowsAffected`.  The retention manager
only calls this with a positive count, so `maxCount : Nat`.  As in
`deleteEmail`, attachment rows cascade only under `foreignKeysEnabled`. -/
def deleteExcessEmails (db : DB) (maxCount : Nat) : DB × Int :=
  let victims := ((orderByReceivedAtDesc db.emails).drop maxCount).map
    (fun r => r.id)
  let remaining := db.emails.filter (fun r => !(victims.contains r.id))
  ({ db with
      emails := remaining
      attachments :=
        if foreignKeysEnabled then
          db.attachments.filter (fun a => !(victims.contains a.emailId))
        else db.attachments },
   (db.emails.length : Int) - (remaining.length : Int))

/-! ## Transfer-encoding decoding — `Parser.decodeContent`
(`internal/email/parser.go`) -/

/-- Value of a base64 alphabet character (`base64.StdEncoding`). -/
def b64Val (c : Char) : Option Nat :=
  if 'A' ≤ c ∧ c ≤ 'Z' then some (c.toNat - 65)
  else if 'a' ≤ c ∧ c ≤ 'z' then some (c.toNat - 97 + 26)
  else if '0' ≤ c ∧ c ≤ '9' then some (c.toNat - 48 + 52)
  else if c = '+' then some 62
  else if c = '/' then some 63
  else none

/-- Decode base64 quartets (padding only in the final quartet); `none` on
malformed input, in which case `decodeContent` keeps the raw data. -/
def b64Quartets : List Char → Option (List Char)
  | [] => some []
  | [a, b, '=', '='] => do
      let va ← b64Val a
      let vb ← b64Val b
      pure [Char.ofNat (((va <<< 18) + (vb <<< 12)) >>> 16)]
  | [a, b, c, '='] => do
      let va ← b64Val a
      let vb ← b64Val b
      let vc ← b64Val c
      let n := (va <<< 18) + (vb <<< 12) + (vc <<< 6)
      pure [Char.ofNat (n >>> 16), Char.ofNat ((n >>> 8) % 256)]
  | a :: b :: c :: d :: rest => do
      let va ← b64Val a
      let vb ← b64Val b
      let vc ← b64Val c
      let vd ← b64Val d
      let n := (va <<< 18) + (vb <<< 12) + (vc <<< 6) + vd
      let tail ← b64Quartets rest
      pure (Char.ofNat (n >>> 16) :: Char.ofNat ((n >>> 8) % 256) ::
        Char.ofNat (n % 256) :: tail)
  | _ => none

/-- `base64.StdEncoding.Decode` (which skips newlines). -/
def base64Decode (s : String) : Option String :=
  (b64Quartets (s.toList.filter fun c => !(c == '\r') && !(c == '\n'))).map
    (fun l => String.mk l)

/-- Hexadecimal digit value (`mime/quotedprintable` accepts both cases). -/
def hexVal (c : Char) : Option Nat :=
  if '0' ≤ c ∧ c ≤ '9' then some (c.toNat - 48)
  else if 'A' ≤ c ∧ c ≤ 'F' then some (c.toNat - 65 + 10)
  else if 'a' ≤ c ∧ c ≤ 'f' then some (c.toNat - 97 + 10)
  else none

/-- Quoted-printable decoding: `=XX` escapes and `=`-terminated soft line
breaks; `none` on malformed input. -/
def qpDecodeAux : List Char → Option (List Char)
  | [] => some []
  | '=' :: '\r' :: '\n' :: rest => qpDecodeAux rest
  | '=' :: '\n' :: rest => qpDecodeAux rest
  | '=' :: a :: b :: rest => do
      let ha ← hexVal a
      let hb ← hexVal b
      let tail ← qpDecodeAux rest
      pure (Char.ofNat (ha * 16 + hb) :: tail)
  | '=' :: _ => none
  | c :: rest => (qpDecodeAux rest).map (c :: ·)

/-- `strings.HasPrefix`. -/
def strHasPrefix (s pre : String) : Bool := pre.toList.isPrefixOf s.toList

/-- ASCII whitespace (`strings.TrimSpace` cuts Unicode whitespace; the
headers in scope are ASCII). -/
def isSpaceChar (c : Char) : Bool :=
  c == ' ' || c == '\t' || c == '\n' || c == '\r'

/-- `strings.TrimSpace` followed by `strings.ToLower`. -/
def trimLower (s : String) : String :=
  String.mk ((((s.toList.dropWhile isSpaceChar).reverse.dropWhile
    isSpaceChar).reverse).map lowerChar)

/-- `Parser.decodeContent`: dispatch on the trimmed, lower-cased
`Content-Transfer-Encoding`; on a decoding error the raw data is returned
unchanged. -/
def decodeContent (data : String) (encoding : String) : String :=
  let enc := trimLower encoding
  if enc == "base64" then
    match base64Decode data with
    | some decoded => decoded
    | none => data
  else if enc == "quoted-printable" then
    match qpDecodeAux data.toList with
    | some decoded => String.mk decoded
    | none => data
  else data

/-! ## MIME structure and `Parser.parsePart` -/

/-- A decoded `go-message` entity: the effective media type and parameters
from `Header.ContentType()` (on a parse error the source substitutes
`"text/plain"` with nil params before this point), the
`Header.ContentDisposition()` value and parameters, the transfer encoding
header, the raw body bytes, and — for multipart entities — the child
parts. -/
inductive MIMEPart where
  | mk
      (mediaType : String)
      (ctParams : List (String × String))
      (disposition : String)
      (dispParams : List (String × String))
      (transferEncoding : String)
      (body : String)
      (children : List MIMEPart)

def MIMEPart.mediaType : MIMEPart → String
  | .mk m _ _ _ _ _ _ => m

def MIMEPart.ctParams : MIMEPart → List (String × String)
  | .mk _ p _ _ _ _ _ => p

def MIMEPart.disposition : MIMEPart → String
  | .mk _ _ d _ _ _ _ => d

def MIMEPart.dispParams : MIMEPart → List (String × String)
  | .mk _ _ _ p _ _ _ => p

def MIMEPart.transferEncoding : MIMEPart → String
  | .mk _ _ _ _ e _ _ => e

def MIMEPart.body : MIMEPart → String
  | .mk _ _ _ _ _ b _ => b

def MIMEPart.children : MIMEPart → List MIMEPart
  | .mk _ _ _ _ _ _ cs => cs

/-- Go map indexing with the zero-value default: `params["name"]` is `""`
when absent. -/
def lookupParam (ps : List (String × String)) (k : String) : String :=
  match ps.find? (fun kv => kv.1 == k) with
  | some kv => kv.2
  | none => ""

/-- The attachment test in `parsePart`:
`disposition == "attachment" || (disposition == "inline" &&
dispParams["filename"] != "")`. -/
def isAttachmentPart (p : MIMEPart) : Bool :=
  p.disposition == "attachment" ||
    (p.disposition == "inline" && !(lookupParam p.dispParams "filename" == ""))

/-- Filename resolution in the attachment branch: disposition `filename`
parameter, else content-type `name` parameter, else `"attachment"`. -/
def resolveFilename (p : MIMEPart) : String :=
  let filename := lookupParam p.dispParams "filename"
  let filename := if filename == "" then lookupParam p.ctParams "name"
    else filename
  if filename == "" then "attachment" else filename

/-- The `storage.Attachment` the attachment branch builds: decoded payload,
resolved filename, the part's media type, size = payload length (bytes;
ASCII payloads make char count and byte count agree). -/
def mkAttachment (p : MIMEPart) : Attachment :=
  let data := decodeContent p.body p.transferEncoding
  { meta := { id := 0, filename := resolveFilename p,
              contentType := p.mediaType, size := (data.length : Int) }
    data := data }

/-- The `email.BodyPlain` / `email.BodyHTML` fields `parsePart` mutates. -/
structure BodyAcc where
  bodyPlain : String
  bodyHTML : String
deriving Repr, DecidableEq

mutual

/-- `Parser.parsePart`: attachment test first; then `text/*` parts decoded
into the plain or HTML body slot (last writer wins, other text subtypes
dropped); then nested `multipart/*` recursion; anything else is silently
ignored. -/
def parsePart : MIMEPart → BodyAcc → BodyAcc × List Attachment
  | p@(.mk mediaType _ _ _ transferEncoding body children), acc =>
      if isAttachmentPart p then (acc, [mkAttachment p])
      else if strHasPrefix mediaType "text/" then
        let text := decodeContent body transferEncoding
        if mediaType == "text/plain" then
          ({ acc with bodyPlain := text }, [])
        else if mediaType == "text/html" then
          ({ acc with bodyHTML := text }, [])
        else (acc, [])
      else if strHasPrefix mediaType "multipart/" then parseParts children acc
      else (acc, [])

/-- The `NextPart` loop shared by `parseBody` and `parsePart`'s multipart
branch: parts in order, threading the body slots, concatenating
attachments. -/
def parseParts : List MIMEPart → BodyAcc → BodyAcc × List Attachment
  | [], acc => (acc, [])
  | p :: rest, acc =>
      let r1 := parsePart p acc
      let r2 := parseParts rest r1.1
      (r2.1, r1.2 ++ r2.2)

end

/-- `Parser.parseBody`: multipart entities iterate their children, anything
else goes through `parsePart` directly. -/
def parseBody (p : MIMEPart) (acc : BodyAcc) : BodyAcc × List Attachment :=
  if strHasPrefix p.mediaType "multipart/" then parseParts p.children acc
  else parsePart p acc

/-! ## `Session.Data` envelope fallback — `internal/smtp/server.go` -/

/-- The envelope-fallback block of `Session.Data`: after parsing, the MAIL
FROM sender is substituted only when the decoded `From` is empty, the RCPT
TO list only when the decoded `To` is empty, and `ReceivedAt` is set to the
current time; the result is what `SaveEmail` receives. -/
def sessionDataEnvelope (parsed : Email) (envFrom : String)
    (envTo : List String) (now : Int) : Email :=
  let e := if parsed.fromAddr == "" then { parsed with fromAddr := envFrom }
    else parsed
  let e := if e.toAddrs.isEmpty then { e with toAddrs := envTo } else e
  { e with receivedAt := now }

/-! ## WebSocket hub — `internal/api/websocket.go` -/

/-- `api.WebSocketMessage`. -/
structure WSMessage where
  msgType : String
  payload : List (String × String)
deriving Repr, DecidableEq

/-- Capacity of each client's `send` channel (`ServeWS` creates
`make(chan *WebSocketMessage, 256)`). -/
def clientSendCap : Nat := 256

/-- A connected client: identity plus the queued (not yet drained) contents
of its `send` channel. -/
structure WSClient where
  id : Nat
  send : List WSMessage
deriving Repr, DecidableEq

/-- Capacity of the hub's `broadcast` channel. -/
def broadcastCap : Nat := 256

/-- Hub state: the client set owned by the `Run` loop and the pending
`broadcast` channel contents. -/
structure HubState where
  clients : List WSClient
  broadcastQueue : List WSMessage
deriving Repr, DecidableEq

/-- `WebSocketHub.Broadcast`: `select { case h.broadcast <- message:
default: /* dropped */ }` — enqueue if the broadcast channel has room,
otherwise drop the message; never blocks and never touches the client
set. -/
def hubBroadcast (h : HubState) (m : WSMessage) : HubState :=
  if h.broadcastQueue.length < broadcastCap then
    { h with broadcastQueue := h.broadcastQueue ++ [m] }
  else h

/-- The `register` case of `WebSocketHub.Run`. -/
def hubRegister (h : HubState) (c : WSClient) : HubState :=
  { h with clients := h.clients ++ [c] }

/-- The `unregister` case of `WebSocketHub.Run`. -/
def hubUnregister (h : HubState) (cid : Nat) : HubState :=
  { h with clients := h.clients.filter fun c => !(c.id == cid) }

/-- The `broadcast` case of `WebSocketHub.Run`: for every client,
`select { case client.send <- message: default: close(client.send);
delete(h.clients, client) }` — enqueue when the client's send channel has
spare capacity, otherwise disconnect and drop the client. -/
def hubDeliver (h : HubState) (m : WSMessage) : HubState :=
  { h with
      clients := h.clients.filterMap fun c =>
        if c.send.length < clientSendCap then
          some { c with send := c.send ++ [m] }
        else none }

/-- One `Run`-loop iteration consuming a pending broadcast message. -/
def hubStepBroadcast (h : HubState) : HubState :=
  match h.broadcastQueue with
  | [] => h
  | m :: rest => hubDeliver { h with broadcastQueue := rest } m

/-! ## HTTP handlers — `internal/api/handlers.go` -/

/-- `math.MaxInt` on a 64-bit platform. -/
def maxGoInt : Int := 2 ^ 63 - 1

/-- One decimal digit (`strconv` parsing). -/
def digitVal (c : Char) : Option Nat :=
  if '0' ≤ c ∧ c ≤ '9' then some (c.toNat - 48) else none

/-- Accumulate decimal digits; `none` on a non-digit. -/
def parseDigitsAux (acc : Nat) : List Char → Option Nat
  | [] => some acc
  | c :: rest =>
      match digitVal c with
      | some d => parseDigitsAux (acc * 10 + d) rest
      | none => none

/-- `strconv.ParseInt(s, 10, 64)` / `strconv.Atoi`: optional sign, at least
one digit (64-bit range checking omitted; the claims' inputs are small). -/
def parseIntStr (s : String) : Option Int :=
  match s.toList with
  | [] => none
  | '-' :: rest =>
      if rest.isEmpty then none
      else (parseDigitsAux 0 rest).map (fun n => -(n : Int))
  | '+' :: rest =>
      if rest.isEmpty then none
      else (parseDigitsAux 0 rest).map (fun n => (n : Int))
  | l => (parseDigitsAux 0 l).map (fun n => (n : Int))

/-- `api.parseIntParam`: missing (`""`) or malformed values fall back to the
default; parsed values are clamped to `[minV, maxV]`. -/
def parseIntParam (value : String) (defaultValue minV maxV : Int) : Int :=
  if value == "" then defaultValue
  else
    match parseIntStr value with
    | none => defaultValue
    | some parsed =>
        if parsed < minV then minV
        else if parsed > maxV then maxV
        else parsed

/-- The response `sendSuccess`/`sendError` serialize for the search
endpoint: a success discriminator with the page, or a failure discriminator
with HTTP status and machine-readable error code. -/
inductive APIResponse where
  | ok (emails : List EmailRow) (total : Int) (limit offset : Int)
  | err (status : Int) (code : String) (message : String)
deriving Repr, DecidableEq

/-- `Server.handleSearchEmails` on query parameters `q`, `limit`, `offset`
(absent parameters are `""`, as `URL.Query().Get` returns).  The returned
`Bool` records whether the storage layer was invoked: an empty `q` is
rejected with HTTP 400 / `INVALID_REQUEST` before any storage call. -/
def handleSearchEmails (db : DB) (q limitParam offsetParam : String) :
    APIResponse × Bool :=
  if q == "" then
    (.err 400 "INVALID_REQUEST" "Search query is required", false)
  else
    let limit := parseIntParam limitParam 50 1 100
    let offset := parseIntParam offsetParam 0 0 maxGoInt
    let result := searchEmails db q limit.toNat offset.toNat
    (.ok result.emails result.total limit offset, true)

/-- Outcome of `Server.handleGetAttachment`. -/
inductive AttachmentResponse where
  | ok (att : AttachmentRow)
  | invalidId
  | notFound
deriving Repr, DecidableEq

/-- `Server.handleGetAttachment` on the two path variables of
`/api/emails/{id}/attachments/{aid}`: only `vars["aid"]` is read — parsed
with `strconv.ParseInt` and required positive — and the lookup is
`storage.GetAttachment(aid)`; `vars["id"]` is never consulted. -/
def handleGetAttachment (db : DB) (idVar aidVar : String) :
    AttachmentResponse :=
  match parseIntStr aidVar with
  | none => .invalidId
  | some aid =>
      if aid ≤ 0 then .invalidId
      else
        match getAttachment db aid with
        | none => .notFound
        | some att => .ok att

/-! ## Spec-side definitions (for refinement comparison only)

These two definitions follow the specification's words, not the source; they
exist to be compared against the source-derived definitions above. -/

/-- Modelled from the spec: the canonical total order of §3 — `receivedAt`
descending, ties broken by `id` DEscending ("newer id wins"). -/
def specCanonicalLe (a b : EmailRow) : Bool :=
  decide (b.receivedAt < a.receivedAt) ||
    (decide (a.receivedAt = b.receivedAt) && decide (b.id ≤ a.id))

/-- Modelled from the spec: a part is an attachment when its disposition is
`"attachment"`, or its disposition is `"inline"` with a filename present, or
its content type is neither a recognized text type nor a multipart
container. -/
def specIsAttachment (p : MIMEPart) : Bool :=
  p.disposition == "attachment" ||
    (p.disposition == "inline" && !(lookupParam p.dispParams "filename" == "")) ||
    (!(strHasPrefix p.mediaType "text/") && !(strHasPrefix p.mediaType "multipart/"))

/-! ## Concrete fixtures for counterexamples and witnesses -/

/-- A row whose fields are all trivial except identity and arrival time. -/
def tieRowA : EmailRow :=
  { id := 1, messageID := "", fromAddress := "", toAddresses := "",
    ccAddresses := "", bccAddresses := "", subject := "", bodyPlain := "",
    bodyHTML := "", headers := "", size := 0, receivedAt := 5, read := false }

/-- A second row with the same `received_at` and a larger id. -/
def tieRowB : EmailRow := { tieRowA with id := 2 }

/-- Two messages that tie on `received_at`. -/
def tieDB : DB :=
  { emails := [tieRowA, tieRowB], attachments := [], nextEmailId := 3,
    nextAttachmentId := 1, hasFTS5 := false }

/-- An attachment's metadata as the parser produces it. -/
def pdfMeta : AttachmentMeta :=
  { id := 0, filename := "f.pdf", contentType := "application/pdf", size := 3 }

/-- A decoded email carrying one attachment, about to be saved. -/
def emailWithAttachment : Email :=
  { id := 0, messageID := "m1", fromAddr := "a@x", toAddrs := ["b@y"],
    cc := [], bcc := [], subject := "s", bodyPlain := "p", bodyHTML := "",
    headers := [], attachments := [pdfMeta], size := 10, receivedAt := 5,
    read := false }

/-- An attachment row owned by email 1 — the state the schema's
`attachments` table is meant to hold after saving a one-attachment email. -/
def orphanAtt : AttachmentRow :=
  { id := 1, emailId := 1, filename := "f.bin",
    contentType := "application/octet-stream", size := 2, data := "ab" }

/-- Email row 1, the owner of `orphanAtt`. -/
def ownerRow : EmailRow :=
  { id := 1, messageID := "m", fromAddress := "a@x",
    toAddresses := "[\"b@y\"]", ccAddresses := "[]", bccAddresses := "[]",
    subject := "s", bodyPlain := "p", bodyHTML := "", headers := "\x7b\x7d",
    size := 10, receivedAt := 5, read := false }

/-- One email owning one attachment. -/
def ownerDB : DB :=
  { emails := [ownerRow], attachments := [orphanAtt], nextEmailId := 2,
    nextAttachmentId := 2, hasFTS5 := false }

/-- `ownerDB` after `DELETE FROM emails WHERE id = 1` with foreign keys
off: the email row is gone, the attachment row is not. -/
def ownerDBAfterDelete : DB := { ownerDB with emails := [] }

/-- A part with no Content-Disposition and a non-text, non-multipart
content type. -/
def undisposedPdfPart : MIMEPart :=
  .mk "application/pdf" [("name", "doc.pdf")] "" [] "base64" "aGk=" []

/-- A part with disposition `attachment`. -/
def dispAttachmentPart : MIMEPart :=
  .mk "application/pdf" [("name", "n.pdf")] "attachment"
    [("filename", "f.pdf")] "" "xyz" []

/-- Search witness: the one message whose subject holds the token `z`. -/
def searchHitRow : EmailRow :=
  { id := 1, messageID := "", fromAddress := "a@x",
    toAddresses := "[\"b@y\"]", ccAddresses := "", bccAddresses := "",
    subject := "a z", bodyPlain := "p", bodyHTML := "", headers := "",
    size := 0, receivedAt := 5, read := false }

/-- Search witness: a message free of the token `z` in every searched
column. -/
def searchMissRow : EmailRow :=
  { id := 2, messageID := "", fromAddress := "f@x",
    toAddresses := "[\"g@y\"]", ccAddresses := "", bccAddresses := "",
    subject := "b", bodyPlain := "q", bodyHTML := "", headers := "",
    size := 0, receivedAt := 7, read := false }

/-- Search witness store. -/
def searchDB : DB :=
  { emails := [searchHitRow, searchMissRow], attachments := [],
    nextEmailId := 3, nextAttachmentId := 1, hasFTS5 := true }

/-- The arrival event used by the hub witness. -/
def wMsg : WSMessage := { msgType := "email.new", payload := [] }

/-- Hub witness: a draining client and a client whose send queue is full. -/
def wHub : HubState :=
  { clients := [{ id := 1, send := [] },
                { id := 2, send := List.replicate clientSendCap wMsg }],
    broadcastQueue := [] }

/-- Envelope witness: decoded headers carry a sender but no recipients. -/
def wParsedEmail : Email :=
  { id := 0, messageID := "", fromAddr := "hdr@x", toAddrs := [], cc := [],
    bcc := [], subject := "", bodyPlain := "", bodyHTML := "", headers := [],
    attachments := [], size := 0, receivedAt := 0, read := false }

/-- Attachment-endpoint witness: attachment 7 owned by email 3. -/
def wAttRow : AttachmentRow :=
  { id := 7, emailId := 3, filename := "a.txt", contentType := "text/plain",
    size := 2, data := "hi" }

/-- Attachment-endpoint witness store: email 3 owns attachment 7. -/
def wAttDB : DB :=
  { emails := [{ id := 3, messageID := "", fromAddress := "",
                 toAddresses := "", ccAddresses := "", bccAddresses := "",
                 subject := "", bodyPlain := "", bodyHTML := "",
                 headers := "", size := 0, receivedAt := 1, read := false }],
    attachments := [wAttRow], nextEmailId := 4, nextAttachmentId := 8,
    hasFTS5 := false }

/-! # Theorems

## Shared helper lemmas -/

/-- `rowLe` is total. -/
theorem rowLe_total (a b : EmailRow) : rowLe a b = true ∨ rowLe b a = true := by
  simp only [rowLe, Bool.or_eq_true, Bool.and_eq_true, decide_eq_true_eq]
  omega

/-- `rowLe` is transitive. -/
theorem rowLe_trans {a b c : EmailRow} (h₁ : rowLe a b = true)
    (h₂ : rowLe b c = true) : rowLe a c = true := by
  simp only [rowLe, Bool.or_eq_true, Bool.and_eq_true, decide_eq_true_eq] at *
  omega

/-- Membership in an ordered insertion. -/
theorem mem_insertRowBy {le : EmailRow → EmailRow → Bool} {a r : EmailRow} :
    ∀ {l : List EmailRow}, a ∈ insertRowBy le r l ↔ a = r ∨ a ∈ l := by
  intro l
  induction l with
  | nil => simp [insertRowBy]
  | cons x xs ih =>
      by_cases hc : le r x = true
      · simp [insertRowBy, hc]
      · simp only [insertRowBy, if_neg hc, List.mem_cons, ih]
        tauto

/-- Ordered insertion permutes the cons. -/
theorem insertRowBy_perm (le : EmailRow → EmailRow → Bool) (r : EmailRow) :
    ∀ (l : List EmailRow), (insertRowBy le r l).Perm (r :: l) := by
  intro l
  induction l with
  | nil => simp [insertRowBy]
  | cons x xs ih =>
      by_cases hc : le r x = true
      · simp [insertRowBy, hc]
      · rw [insertRowBy, if_neg hc]
        exact (ih.cons x).trans (List.Perm.swap r x xs)

/-- Insertion sort permutes its input. -/
theorem sortRowsBy_perm (le : EmailRow → EmailRow → Bool) :
    ∀ (l : List EmailRow), (sortRowsBy le l).Perm l := by
  intro l
  induction l with
  | nil => simp [sortRowsBy]
  | cons x xs ih =>
      exact (insertRowBy_perm le x (sortRowsBy le xs)).trans (ih.cons x)

/-- Inserting into a `le`-sorted list keeps it sorted, for total transitive
`le`. -/
theorem pairwise_insertRowBy {le : EmailRow → EmailRow → Bool}
    (htot : ∀ a b, le a b = true ∨ le b a = true)
    (htr : ∀ {a b c}, le a b = true → le b c = true → le a c = true)
    (r : EmailRow) :
    ∀ {l : List EmailRow}, l.Pairwise (fun a b => le a b = true) →
      (insertRowBy le r l).Pairwise (fun a b => le a b = true) := by
  intro l
  induction l with
  | nil => simp [insertRowBy]
  | cons x xs ih =>
      intro h
      rw [List.pairwise_cons] at h
      obtain ⟨hx, hxs⟩ := h
      by_cases hc : le r x = true
      · rw [insertRowBy, if_pos hc]
        refine List.Pairwise.cons ?_ (List.Pairwise.cons hx hxs)
        intro b hb
        rcases List.mem_cons.mp hb with rfl | hb
        · exact hc
        · exact htr hc (hx b hb)
      · rw [insertRowBy, if_neg hc]
        refine List.Pairwise.cons ?_ (ih hxs)
        intro b hb
        rcases mem_insertRowBy.mp hb with rfl | hb
        · exact (htot b x).resolve_left hc
        · exact hx b hb

/-- Insertion sort sorts, for total transitive `le`. -/
theorem pairwise_sortRowsBy {le : EmailRow → EmailRow → Bool}
    (htot : ∀ a b, le a b = true ∨ le b a = true)
    (htr : ∀ {a b c}, le a b = true → le b c = true → le a c = true) :
    ∀ (l : List EmailRow),
      (sortRowsBy le l).Pairwise (fun a b => le a b = true) := by
  intro l
  induction l with
  | nil => simp [sortRowsBy]
  | cons x xs ih => exact pairwise_insertRowBy htot htr x ih

/-- In a list whose elements have pairwise-distinct keys, the key determines
the element. -/
theorem key_inj {α β : Type} (key : α → β) :
    ∀ {l : List α}, l.Pairwise (fun a b => key a ≠ key b) →
      ∀ {a b : α}, a ∈ l → b ∈ l → key a = key b → a = b := by
  intro l
  induction l with
  | nil => intro _ a b ha; cases ha
  | cons x xs ih =>
      intro h a b ha hb hk
      rw [List.pairwise_cons] at h
      obtain ⟨hx, hxs⟩ := h
      rcases List.mem_cons.mp ha with rfl | ha'
      · rcases List.mem_cons.mp hb with rfl | hb'
        · rfl
        · exact absurd hk (hx b hb')
      · rcases List.mem_cons.mp hb with rfl | hb'
        · exact absurd hk.symm (hx a ha')
        · exact ih hxs ha' hb' hk

/-- Every token produced by `tokenizeAux acc l` is a contiguous substring of
`acc.reverse ++ l`. -/
theorem tokenizeAux_infix {t : List Char} :
    ∀ (l acc : List Char), t ∈ tokenizeAux acc l → t <:+: acc.reverse ++ l := by
  intro l
  induction l with
  | nil =>
      intro acc h
      rw [tokenizeAux] at h
      by_cases he : acc.isEmpty
      · rw [if_pos he] at h; cases h
      · rw [if_neg he] at h
        rcases List.mem_singleton.mp h with rfl
        simp
  | cons c rest ih =>
      intro acc h
      rw [tokenizeAux] at h
      by_cases ha : isAlnum c = true
      · rw [if_pos ha] at h
        have := ih (c :: acc) h
        rwa [List.reverse_cons, List.append_assoc, List.singleton_append]
          at this
      · rw [if_neg ha] at h
        by_cases he : acc.isEmpty
        · rw [if_pos he] at h
          have hacc : acc = [] := List.isEmpty_iff.mp he
          subst hacc
          have := ih [] h
          rw [List.reverse_nil, List.nil_append] at this
          rw [List.reverse_nil, List.nil_append]
          exact this.trans (List.suffix_append [c] rest).isInfix
        · rw [if_neg he] at h
          rcases List.mem_cons.mp h with rfl | h
          · exact (List.prefix_append acc.reverse (c :: rest)).isInfix
          · have := ih [] h
            rw [List.reverse_nil, List.nil_append] at this
            refine this.trans ?_
            have h1 : rest <:+ acc.reverse ++ c :: rest := by
              rw [show acc.reverse ++ c :: rest
                    = (acc.reverse ++ [c]) ++ rest from by
                  rw [List.append_assoc, List.singleton_append]]
              exact List.suffix_append _ _
            exact h1.isInfix

/-- A token of a column value is a substring of the case-folded value. -/
theorem token_infix_of_mem_tokensOf {t : List Char} {s : String}
    (h : t ∈ tokensOf s) : t <:+: lowerStr s := by
  have := tokenizeAux_infix (lowerStr s) [] h
  rwa [List.reverse_nil, List.nil_append] at this

/-- Filtering a pairwise-distinct-id row list by a predicate that holds for
`r` and fails for every row with a different id yields exactly `[r]`. -/
theorem filter_eq_singleton_of_unique {p : EmailRow → Bool}
    {l : List EmailRow} {r : EmailRow}
    (hids : l.Pairwise (fun a b => a.id ≠ b.id)) (hmem : r ∈ l)
    (hr : p r = true) (hothers : ∀ x ∈ l, x.id ≠ r.id → p x = false) :
    l.filter p = [r] := by
  induction l with
  | nil => cases hmem
  | cons x xs ih =>
      rw [List.pairwise_cons] at hids
      obtain ⟨hx, hxs⟩ := hids
      rcases List.mem_cons.mp hmem with rfl | hmem'
      · rw [List.filter_cons_of_pos hr]
        have : xs.filter p = [] := by
          rw [List.filter_eq_nil_iff]
          intro a ha
          have : a.id ≠ r.id := fun hid => hx a ha hid.symm
          simp [hothers a (List.mem_cons_of_mem _ ha) this]
        rw [this]
      · have hxid : x.id ≠ r.id := hx r hmem'
        have hpx : p x = false := hothers x (List.mem_cons_self x xs) hxid
        rw [List.filter_cons_of_neg (by simp [hpx])]
        exact ih hxs hmem'
          (fun a ha hne => hothers a (List.mem_cons_of_mem _ ha) hne)

/-! ## C1 — atomic save of message plus attachments -/

/-- C1: the claim that a successful `save` makes the message and all its
attachments visible together fails: `SaveEmail`'s attachment loop guards
its INSERT behind a type assertion of a `*AttachmentMeta` to
`*Attachment`, which never succeeds, so saving `emailWithAttachment`
(one attachment) succeeds and returns id 1, yet `getEmail 1` shows an
empty attachment list and the `attachments` table stays empty — no
attachment payload is ever retrievable. -/
theorem saveEmail_persists_no_attachments :
    (saveEmail (emptyDB true) emailWithAttachment).2 = 1
    ∧ emailWithAttachment.attachments = [pdfMeta]
    ∧ (getEmail (saveEmail (emptyDB true) emailWithAttachment).1 1).map
        Prod.snd = some []
    ∧ (saveEmail (emptyDB true) emailWithAttachment).1.attachments = [] := by
  decide

/-! ## C2 — no orphan attachments / cascading delete -/

/-- C2: the no-orphan invariant fails at `DeleteEmail`.  The connection
options never enable foreign-key enforcement, so the schema's `ON DELETE
CASCADE` is inert: deleting email 1 from a store in which attachment 1 is
owned by email 1 succeeds but leaves the attachment row behind, and
`getAttachment 1` still returns its payload instead of NotFound. -/
theorem deleteEmail_leaves_orphan_attachment :
    foreignKeysEnabled = false
    ∧ deleteEmail ownerDB 1 = some ownerDBAfterDelete
    ∧ ownerDBAfterDelete.emails = []
    ∧ getAttachment ownerDBAfterDelete 1 = some orphanAtt := by
  decide

/-! ## C7 — hub backpressure -/

/-- C7: delivering a broadcast never blocks on subscriber state (the
delivery step is a total function of the hub state): every subscriber with
spare queue capacity receives the event appended to its queue, every
subscriber whose queue is full is removed from the subscriber set, and no
subscriber appears from nowhere. -/
theorem hubDeliver_backpressure (h : HubState) (m : WSMessage)
    (hids : h.clients.Pairwise (fun a b => a.id ≠ b.id)) :
    (∀ c ∈ h.clients,
      (c.send.length < clientSendCap →
        ∃ c' ∈ (hubDeliver h m).clients, c'.id = c.id ∧ c'.send = c.send ++ [m])
      ∧ (clientSendCap ≤ c.send.length →
        ∀ c' ∈ (hubDeliver h m).clients, c'.id ≠ c.id))
    ∧ (∀ c' ∈ (hubDeliver h m).clients, ∃ c ∈ h.clients, c'.id = c.id) := by
  constructor
  · intro c hc
    constructor
    · intro hroom
      refine ⟨{ c with send := c.send ++ [m] }, ?_, rfl, rfl⟩
      simp only [hubDeliver]
      exact List.mem_filterMap.mpr ⟨c, hc, by rw [if_pos hroom]⟩
    · intro hfull c' hc'
      simp only [hubDeliver] at hc'
      obtain ⟨a, ha, hfa⟩ := List.mem_filterMap.mp hc'
      by_cases hroom : a.send.length < clientSendCap
      · rw [if_pos hroom] at hfa
        injection hfa with hfa
        subst hfa
        intro heq
        have hac : a = c := key_inj (fun x => x.id) hids ha hc heq
        subst hac
        omega
      · rw [if_neg hroom] at hfa
        exact absurd hfa (by simp)
  · intro c' hc'
    simp only [hubDeliver] at hc'
    obtain ⟨a, ha, hfa⟩ := List.mem_filterMap.mp hc'
    by_cases hroom : a.send.length < clientSendCap
    · rw [if_pos hroom] at hfa
      injection hfa with hfa
      subst hfa
      exact ⟨a, ha, rfl⟩
    · rw [if_neg hroom] at hfa
      exact absurd hfa (by simp)

/-- C7 witness: with one draining client (id 1) and one full client (id 2),
delivering an event hands it to client 1 and removes client 2. -/
theorem hubDeliver_backpressure_witness :
    (∃ c' ∈ (hubDeliver wHub wMsg).clients, c'.id = 1 ∧ c'.send = [wMsg])
    ∧ (∀ c' ∈ (hubDeliver wHub wMsg).clients, c'.id ≠ 2) := by
  have h := hubDeliver_backpressure wHub wMsg (by decide)
  have h1 := (h.1 { id := 1, send := [] }
    (by simp [wHub])).1 (by decide)
  have h2 := (h.1 { id := 2, send := List.replicate clientSendCap wMsg }
    (by simp [wHub])).2 (by simp)
  exact ⟨h1, h2⟩

/-! ## C8 — empty search query rejected -/

/-- C8: for every store state and every raw `limit`/`offset` parameter, an
empty search query is answered with HTTP 400 / `INVALID_REQUEST` (the
InvalidArgument discriminator) and the storage layer is never invoked. -/
theorem handleSearchEmails_rejects_empty_query (db : DB)
    (limitParam offsetParam : String) :
    handleSearchEmails db "" limitParam offsetParam =
      (.err 400 "INVALID_REQUEST" "Search query is required", false) := by
  rfl

/-! ## C9 — envelope sender/recipients as fallback only -/

/-- C9: `Session.Data` substitutes the SMTP envelope sender exactly when the
decoded `From` is empty and the envelope recipients exactly when the decoded
`To` list is empty; decoded values, when present, are stored unchanged. -/
theorem sessionData_envelope_fallback (parsed : Email) (envFrom : String)
    (envTo : List String) (now : Int) :
    (parsed.fromAddr ≠ "" →
      (sessionDataEnvelope parsed envFrom envTo now).fromAddr = parsed.fromAddr)
    ∧ (parsed.fromAddr = "" →
      (sessionDataEnvelope parsed envFrom envTo now).fromAddr = envFrom)
    ∧ (parsed.toAddrs ≠ [] →
      (sessionDataEnvelope parsed envFrom envTo now).toAddrs = parsed.toAddrs)
    ∧ (parsed.toAddrs = [] →
      (sessionDataEnvelope parsed envFrom envTo now).toAddrs = envTo) := by
  by_cases hf : parsed.fromAddr = "" <;>
    by_cases ht : parsed.toAddrs = [] <;>
      simp [sessionDataEnvelope, hf, ht, List.isEmpty_iff]

/-- C9 witness: a decoded email with a header sender and no recipients keeps
its sender and receives the envelope recipient list. -/
theorem sessionData_envelope_fallback_witness :
    (sessionDataEnvelope wParsedEmail "env@s" ["env@r"] 9).fromAddr
      = wParsedEmail.fromAddr
    ∧ (sessionDataEnvelope wParsedEmail "env@s" ["env@r"] 9).toAddrs
      = ["env@r"] := by
  have h := sessionData_envelope_fallback wParsedEmail "env@s" ["env@r"] 9
  exact ⟨h.1 (by decide), h.2.2.2 rfl⟩

/-! ## C10 — attachment fetch keyed only by attachment id -/

/-- C10: `handleGetAttachment` reads only the `aid` path variable; for a
stored attachment, the payload is returned unchanged for any message id in
the path — one that owns it, one that does not, or one that does not
exist. -/
theorem handleGetAttachment_ignores_email_id (db : DB)
    (idVar1 idVar2 aidVar : String) (aid : Int) (att : AttachmentRow)
    (hparse : parseIntStr aidVar = some aid) (hpos : 0 < aid)
    (hfound : getAttachment db aid = some att) :
    handleGetAttachment db idVar1 aidVar = .ok att
    ∧ handleGetAttachment db idVar2 aidVar = .ok att := by
  have hne : ¬ aid ≤ 0 := by omega
  constructor <;> simp [handleGetAttachment, hparse, hne, hfound]

/-- C10 witness: attachment 7 (owned by email 3) is served both under the
nonexistent message id 999 and under the owner id 3. -/
theorem handleGetAttachment_ignores_email_id_witness :
    handleGetAttachment wAttDB "999" "7" = .ok wAttRow
    ∧ handleGetAttachment wAttDB "3" "7" = .ok wAttRow :=
  handleGetAttachment_ignores_email_id wAttDB "999" "3" "7" 7 wAttRow
    (by decide) (by decide) (by decide)

/-! ## C3 — list ordering -/

/-- C3 counterexample: the claimed id-DESCENDING tiebreak does not hold.
`ListEmails` orders by `received_at DESC` alone; on `tieDB` (two messages
with equal `received_at`) the page comes back `[id 1, id 2]` — the smaller
id first — refuting the claim at `filter = none`, `limit = 50`,
`offset = 0`. -/
theorem listEmails_id_desc_tiebreak_refuted :
    ¬ (∀ (db : DB) (filter : Option EmailFilter) (limit offset : Nat),
        (listEmails db filter limit offset).emails.Pairwise
          (fun a b => b.receivedAt < a.receivedAt ∨
            (a.receivedAt = b.receivedAt ∧ b.id < a.id))) := by
  intro h
  exact absurd (h tieDB none 50 0) (by decide)

/-- C3 (amended): for every store whose rows have pairwise-distinct ids and
every filter, the page returned by `listEmails` is sorted by `receivedAt`
descending with ties broken by id ASCENDING (the order the query's
`ORDER BY received_at DESC` actually yields), not id descending. -/
theorem listEmails_page_ordered (db : DB) (filter : Option EmailFilter)
    (limit offset : Nat)
    (hids : db.emails.Pairwise (fun a b => a.id ≠ b.id)) :
    (listEmails db filter limit offset).emails.Pairwise
      (fun a b => b.receivedAt < a.receivedAt ∨
        (a.receivedAt = b.receivedAt ∧ a.id < b.id)) := by
  have hperm :=
    sortRowsBy_perm rowLe (db.emails.filter (rowMatchesFilter filter))
  have hids_f : (db.emails.filter (rowMatchesFilter filter)).Pairwise
      (fun a b => a.id ≠ b.id) := hids.filter _
  have hids_s : (orderByReceivedAtDesc
      (db.emails.filter (rowMatchesFilter filter))).Pairwise
      (fun a b => a.id ≠ b.id) :=
    (List.Perm.pairwise_iff (fun h => h.symm) hperm).mpr hids_f
  have hsorted : (orderByReceivedAtDesc
      (db.emails.filter (rowMatchesFilter filter))).Pairwise
      (fun a b => rowLe a b = true) :=
    pairwise_sortRowsBy rowLe_total (fun h1 h2 => rowLe_trans h1 h2) _
  have hstrict : (orderByReceivedAtDesc
      (db.emails.filter (rowMatchesFilter filter))).Pairwise
      (fun a b => b.receivedAt < a.receivedAt ∨
        (a.receivedAt = b.receivedAt ∧ a.id < b.id)) := by
    have hcomb := List.pairwise_and_iff.mpr ⟨hsorted, hids_s⟩
    refine hcomb.imp ?_
    intro a b hab
    obtain ⟨h1, h2⟩ := hab
    simp only [rowLe, Bool.or_eq_true, Bool.and_eq_true,
      decide_eq_true_eq] at h1
    omega
  have hsub : (((orderByReceivedAtDesc
      (db.emails.filter (rowMatchesFilter filter))).drop offset).take
        limit).Sublist
      (orderByReceivedAtDesc (db.emails.filter (rowMatchesFilter filter))) :=
    (List.take_sublist _ _).trans (List.drop_sublist _ _)
  simpa only [listEmails] using List.Pairwise.sublist hsub hstrict

/-- C3 witness: the amended ordering holds on the concrete tied store. -/
theorem listEmails_page_ordered_witness :
    (listEmails tieDB none 50 0).emails.Pairwise
      (fun a b => b.receivedAt < a.receivedAt ∨
        (a.receivedAt = b.receivedAt ∧ a.id < b.id)) :=
  listEmails_page_ordered tieDB none 50 0 (by decide)

/-! ## C4 — count-based eviction -/

/-- C4 counterexample: eviction does not retain the `maxCount` most-recent
messages under the spec's canonical order (ties id-descending).  On `tieDB`
with `maxCount = 1` the canonical order keeps id 2, but
`DeleteExcessEmails` (ordering by `received_at DESC` alone, ties
id-ascending) keeps id 1. -/
theorem deleteExcess_canonical_tiebreak_refuted :
    ¬ (∀ (db : DB) (n : Nat),
        db.emails.Pairwise (fun a b => a.id ≠ b.id) →
        ∀ r ∈ db.emails,
          (r ∈ (deleteExcessEmails db n).1.emails ↔
            r ∈ (sortRowsBy specCanonicalLe db.emails).take n)) := by
  intro h
  have := (h tieDB 1 (by decide) tieRowA (by decide)).mp (by decide)
  exact absurd this (by decide)

/-- C4 (amended): for distinct-id stores, `deleteExcessEmails n` retains
exactly the `n` first rows of the query order (`receivedAt` descending,
ties id ASCENDING — not the spec's id-descending canonical order), returns
the number removed, and is a no-op returning 0 when the store holds at most
`n` messages. -/
theorem deleteExcessEmails_spec (db : DB) (n : Nat)
    (hids : db.emails.Pairwise (fun a b => a.id ≠ b.id)) :
    ((deleteExcessEmails db n).2 =
      (db.emails.length : Int) - ((min n db.emails.length : Nat) : Int))
    ∧ (∀ r, r ∈ (deleteExcessEmails db n).1.emails ↔
        r ∈ (orderByReceivedAtDesc db.emails).take n)
    ∧ (db.emails.length ≤ n → deleteExcessEmails db n = (db, 0)) := by
  have hperm : (orderByReceivedAtDesc db.emails).Perm db.emails :=
    sortRowsBy_perm rowLe db.emails
  have hids_s : (orderByReceivedAtDesc db.emails).Pairwise
      (fun a b => a.id ≠ b.id) :=
    (List.Perm.pairwise_iff (fun h => h.symm) hperm).mpr hids
  have hnd_s : (orderByReceivedAtDesc db.emails).Nodup :=
    hids_s.imp (fun h he => h (by rw [he]))
  have hnd_e : db.emails.Nodup := hids.imp (fun h he => h (by rw [he]))
  have hkey : ∀ r ∈ db.emails,
      ((((orderByReceivedAtDesc db.emails).drop n).map
        (fun x => x.id)).contains r.id = true ↔
        r ∈ (orderByReceivedAtDesc db.emails).drop n) := by
    intro r hr
    constructor
    · intro hc
      have hmem : r.id ∈ ((orderByReceivedAtDesc db.emails).drop n).map
          (fun x => x.id) := List.elem_iff.mp hc
      obtain ⟨v, hv, hvid⟩ := List.mem_map.mp hmem
      have hvs : v ∈ orderByReceivedAtDesc db.emails :=
        (List.drop_sublist n _).subset hv
      have hrs : r ∈ orderByReceivedAtDesc db.emails := hperm.mem_iff.mpr hr
      have hvr : v = r := key_inj (fun x => x.id) hids_s hvs hrs hvid
      rwa [← hvr]
    · intro hd
      exact List.elem_iff.mpr (List.mem_map.mpr ⟨r, hd, rfl⟩)
  have hfilter_iff : ∀ r,
      r ∈ db.emails.filter (fun x =>
        !((((orderByReceivedAtDesc db.emails).drop n).map
          (fun y => y.id)).contains x.id)) ↔
      r ∈ (orderByReceivedAtDesc db.emails).take n := by
    intro r
    rw [List.mem_filter]
    constructor
    · rintro ⟨hre, hnv⟩
      have hnc : (((orderByReceivedAtDesc db.emails).drop n).map
          (fun y => y.id)).contains r.id = false := by
        simpa using hnv
      have hnd : r ∉ (orderByReceivedAtDesc db.emails).drop n := by
        intro hd
        rw [(hkey r hre).mpr hd] at hnc
        cases hnc
      have hrs : r ∈ orderByReceivedAtDesc db.emails := hperm.mem_iff.mpr hre
      rw [← List.take_append_drop n (orderByReceivedAtDesc db.emails)] at hrs
      rcases List.mem_append.mp hrs with ht | hd
      · exact ht
      · exact absurd hd hnd
    · intro ht
      have hrs : r ∈ orderByReceivedAtDesc db.emails :=
        (List.take_sublist n _).subset ht
      have hre : r ∈ db.emails := hperm.mem_iff.mp hrs
      refine ⟨hre, ?_⟩
      have hnd : r ∉ (orderByReceivedAtDesc db.emails).drop n :=
        fun hd => List.disjoint_take_drop hnd_s (le_refl n) ht hd
      have : (((orderByReceivedAtDesc db.emails).drop n).map
          (fun y => y.id)).contains r.id = false := by
        cases hcc : (((orderByReceivedAtDesc db.emails).drop n).map
            (fun y => y.id)).contains r.id
        · rfl
        · exact absurd ((hkey r hre).mp hcc) hnd
      rw [this]
      rfl
  have hrem_perm : (db.emails.filter (fun x =>
      !((((orderByReceivedAtDesc db.emails).drop n).map
        (fun y => y.id)).contains x.id))).Perm
      ((orderByReceivedAtDesc db.emails).take n) := by
    refine (List.perm_ext_iff_of_nodup ?_ ?_).mpr (fun a => hfilter_iff a)
    · exact hnd_e.filter _
    · exact hnd_s.sublist (List.take_sublist n _)
  have hlen : (db.emails.filter (fun x =>
      !((((orderByReceivedAtDesc db.emails).drop n).map
        (fun y => y.id)).contains x.id))).length
      = min n db.emails.length := by
    rw [hrem_perm.length_eq, List.length_take, hperm.length_eq]
  refine ⟨?_, ?_, ?_⟩
  · simp only [deleteExcessEmails]
    rw [hlen]
  · intro r
    simpa only [deleteExcessEmails] using hfilter_iff r
  · intro hle
    have hdrop : (orderByReceivedAtDesc db.emails).drop n = [] :=
      List.drop_eq_nil_of_le (by rw [hperm.length_eq]; exact hle)
    have hfk : foreignKeysEnabled = false := by decide
    simp only [deleteExcessEmails, hdrop, hfk, List.map_nil, if_neg,
      Bool.false_eq_true, not_false_iff]
    have hpred : (fun x : EmailRow =>
        !(([] : List Int).contains x.id)) = fun _ => true := by
      funext x
      simp [List.contains]
    rw [hpred, List.filter_true]
    simp

/-- C4 witness: the amended statement evaluated on the tied store with
`maxCount = 2` (a no-op). -/
theorem deleteExcessEmails_spec_witness :
    (deleteExcessEmails tieDB 2).2 =
      (tieDB.emails.length : Int) - ((min 2 tieDB.emails.length : Nat) : Int)
    ∧ (tieRowA ∈ (deleteExcessEmails tieDB 2).1.emails ↔
        tieRowA ∈ (orderByReceivedAtDesc tieDB.emails).take 2)
    ∧ deleteExcessEmails tieDB 2 = (tieDB, 0) := by
  have h := deleteExcessEmails_spec tieDB 2 (by decide)
  exact ⟨h.1, h.2.1 tieRowA, h.2.2 (by decide)⟩

/-! ## C5 — attachment classification in `parsePart` -/

/-- C5 counterexample: the spec's third disjunct ("content type neither a
recognized text type nor a multipart container") is not part of the code's
classification.  `undisposedPdfPart` — an `application/pdf` part with no
Content-Disposition — satisfies the spec-side classifier but `parsePart`
silently drops it: no attachment is captured. -/
theorem parsePart_classification_refuted :
    ¬ (∀ (p : MIMEPart) (acc : BodyAcc),
        ((parsePart p acc).2 ≠ [] ↔ specIsAttachment p = true)) := by
  intro h
  have hne := (h undisposedPdfPart ⟨"", ""⟩).mpr (by decide)
  exact hne (by decide)

/-- C5 (amended): `parsePart` classifies a part as an attachment exactly
when its disposition is `"attachment"` or `"inline"` with a filename
parameter present; such a part is captured as the single attachment
`mkAttachment p` (filename from the disposition parameters, else the
content-type `name` parameter, else `"attachment"`), while a part with any
other disposition whose type is neither `text/*` nor `multipart/*` is
silently dropped — not captured as an attachment. -/
theorem parsePart_attachment_classification (p : MIMEPart) (acc : BodyAcc) :
    (isAttachmentPart p = true → parsePart p acc = (acc, [mkAttachment p]))
    ∧ (isAttachmentPart p = false →
        strHasPrefix p.mediaType "text/" = false →
        strHasPrefix p.mediaType "multipart/" = false →
        parsePart p acc = (acc, [])) := by
  obtain ⟨mt, cps, disp, dps, te, body, children⟩ := p
  constructor
  · intro hA
    simp [parsePart, hA]
  · intro hA hT hM
    simp only [MIMEPart.mediaType] at hT hM
    simp [parsePart, hA, hT, hM]

/-- C5 witness: a disposition-`attachment` part is captured with its
resolved filename; the undisposed `application/pdf` part is dropped. -/
theorem parsePart_attachment_classification_witness :
    parsePart dispAttachmentPart ⟨"", ""⟩ =
      (⟨"", ""⟩, [mkAttachment dispAttachmentPart])
    ∧ parsePart undisposedPdfPart ⟨"", ""⟩ = (⟨"", ""⟩, []) :=
  ⟨(parsePart_attachment_classification dispAttachmentPart ⟨"", ""⟩).1
      (by decide),
   (parsePart_attachment_classification undisposedPdfPart ⟨"", ""⟩).2
      (by decide) (by decide) (by decide)⟩

/-! ## C6 — indexed and fallback search agree on a unique subject token -/

/-- C6: for every store with pairwise-distinct ids, a query that occurs as a
token of one message's subject and is not a (case-insensitive) substring of
any searched column of any other message is answered with exactly that
message — same page, same total — by BOTH search modes (the FTS5 branch and
the LIKE fallback branch taken when the flag probed at startup differs);
and a message matches the fallback mode exactly when the query is a
case-insensitive substring of its subject, sender, recipient list, or plain
body, joined with OR. -/
theorem searchEmails_unique_subject_token
    (db : DB) (r : EmailRow) (q : String) (limit : Nat)
    (hids : db.emails.Pairwise (fun a b => a.id ≠ b.id))
    (hmem : r ∈ db.emails)
    (htok : lowerStr q ∈ tokensOf r.subject)
    (hothers : ∀ x ∈ db.emails, x.id ≠ r.id → fallbackRowMatch q x = false)
    (hlim : 1 ≤ limit) :
    (searchEmailsFTS db q limit 0).emails = [r]
    ∧ (searchEmailsLike db q limit 0).emails = [r]
    ∧ (searchEmailsFTS db q limit 0).total = 1
    ∧ (searchEmailsLike db q limit 0).total = 1
    ∧ (∀ x, fallbackRowMatch q x = true ↔
        (lowerStr q <:+: lowerStr x.subject ∨
         lowerStr q <:+: lowerStr x.fromAddress ∨
         lowerStr q <:+: lowerStr x.toAddresses ∨
         lowerStr q <:+: lowerStr x.bodyPlain)) := by
  have hchar : ∀ x, fallbackRowMatch q x = true ↔
      (lowerStr q <:+: lowerStr x.subject ∨
       lowerStr q <:+: lowerStr x.fromAddress ∨
       lowerStr q <:+: lowerStr x.toAddresses ∨
       lowerStr q <:+: lowerStr x.bodyPlain) := by
    intro x
    simp only [fallbackRowMatch, likeContains, Bool.or_eq_true,
      decide_eq_true_eq]
    tauto
  have hfall_r : fallbackRowMatch q r = true :=
    (hchar r).mpr (Or.inl (token_infix_of_mem_tokensOf htok))
  have hfts_r : ftsRowMatch q r = true := by
    simp only [ftsRowMatch, searchColumns, List.any_eq_true]
    exact ⟨r.subject, by simp, List.elem_iff.mpr htok⟩
  have hfts_others : ∀ x ∈ db.emails, x.id ≠ r.id →
      ftsRowMatch q x = false := by
    intro x hx hne
    cases hmatch : ftsRowMatch q x with
    | false => rfl
    | true =>
        exfalso
        simp only [ftsRowMatch, searchColumns, List.any_eq_true] at hmatch
        obtain ⟨f, hf, hcont⟩ := hmatch
        have hinf : lowerStr q <:+: lowerStr f :=
          token_infix_of_mem_tokensOf (List.elem_iff.mp hcont)
        have hfalse := hothers x hx hne
        have htrue : fallbackRowMatch q x = true := by
          simp only [List.mem_cons, List.mem_singleton] at hf
          rcases hf with rfl | rfl | rfl | hf
          · exact (hchar x).mpr (Or.inl hinf)
          · exact (hchar x).mpr (Or.inr (Or.inl hinf))
          · exact (hchar x).mpr (Or.inr (Or.inr (Or.inl hinf)))
          · rcases hf with rfl | hf
            · exact (hchar x).mpr (Or.inr (Or.inr (Or.inr hinf)))
            · cases hf
        rw [hfalse] at htrue
        cases htrue
  have hfilterL : db.emails.filter (fallbackRowMatch q) = [r] :=
    filter_eq_singleton_of_unique hids hmem hfall_r hothers
  have hfilterF : db.emails.filter (ftsRowMatch q) = [r] :=
    filter_eq_singleton_of_unique hids hmem hfts_r hfts_others
  obtain ⟨k, rfl⟩ : ∃ k, limit = k + 1 := ⟨limit - 1, by omega⟩
  refine ⟨?_, ?_, ?_, ?_, hchar⟩
  · simp [searchEmailsFTS, hfilterF, orderByReceivedAtDesc, sortRowsBy,
      insertRowBy]
  · simp [searchEmailsLike, hfilterL, orderByReceivedAtDesc, sortRowsBy,
      insertRowBy]
  · simp [searchEmailsFTS, hfilterF]
  · simp [searchEmailsLike, hfilterL]

/-- C6 witness: on a two-message store where the token `z` occurs only in
message 1's subject, both modes return exactly message 1. -/
theorem searchEmails_unique_subject_token_witness :
    (searchEmailsFTS searchDB "z" 1 0).emails = [searchHitRow]
    ∧ (searchEmailsLike searchDB "z" 1 0).emails = [searchHitRow] := by
  have h := searchEmails_unique_subject_token searchDB searchHitRow "z" 1
    (by decide) (by decide) (by decide) (by decide) (by decide)
  exact ⟨h.1, h.2.1⟩

end GoWebMail
